import Mathlib

/-!
Verification of the process-control core of the `deet` debugger
(`src/proj-1/deet/src/inferior.rs`, `src/proj-1/deet/src/debugger.rs`).

Machine integers (`usize`/`u64`) are modelled as `Nat` with explicit
`< 2 ^ 64` bounds; target memory is a map from word-aligned addresses to
64-bit word values.  Fallible OS calls are modelled by explicit result
values supplied as oracles, and Rust `panic!`/`unwrap` aborts are a
distinguished outcome, separate from recoverable `Result` errors.
-/

namespace Deet

/-- Target memory at word granularity: maps each word-aligned address to the
64-bit word stored there.  (ptrace reads and writes whole aligned words.) -/
def Mem : Type := Nat → Nat

/-- The function `align_addr_to_word` from inferior.rs:
`addr & (-(size_of::<usize>() as isize) as usize)`.  On a 64-bit target the
two's-complement mask `-(8 : isize) as usize` is `2 ^ 64 - 8`. -/
def align_addr_to_word (addr : Nat) : Nat :=
  addr &&& (2 ^ 64 - 8)

/-- The 64-bit mask `!(0xff << s)` used by `write_byte`: bitwise-not on `u64`
is xor with the all-ones word. -/
def wordMask (s : Nat) : Nat :=
  ((0xff : Nat) <<< s) ^^^ (2 ^ 64 - 1)

/-- Extraction `(word >> s) & 0xff` of the byte at bit position `s`. -/
def byteGet (w s : Nat) : Nat :=
  (w >>> s) &&& 0xff

/-- Replacement `(word & !(0xff << s)) | (val << s)` of the byte at bit
position `s`. -/
def byteSet (w s v : Nat) : Nat :=
  (w &&& wordMask s) ||| (v <<< s)

/-- The method `Inferior::write_byte` from inferior.rs, with the ptrace word read and
write made explicit on `Mem`: computes the containing aligned word, extracts
the original byte at the byte offset, overwrites only that byte, writes the
word back.  Returns the original byte together with the updated memory. -/
def write_byte (mem : Mem) (addr : Nat) (val : Nat) : Nat × Mem :=
  let aligned_addr := align_addr_to_word addr
  let byte_offset := addr - aligned_addr
  let word := mem aligned_addr
  let orig_byte := byteGet word (8 * byte_offset)
  let updated_word := byteSet word (8 * byte_offset) val
  (orig_byte, fun a => if a = aligned_addr then updated_word else mem a)

/-- The byte stored at `addr`: the same extraction `write_byte` performs,
used as the observer for breakpoint-installation facts. -/
def read_byte (mem : Mem) (addr : Nat) : Nat :=
  byteGet (mem (align_addr_to_word addr)) (8 * (addr - align_addr_to_word addr))

/-- All words of the memory fit in 64 bits. -/
def Mem64 (mem : Mem) : Prop :=
  ∀ a, mem a < 2 ^ 64

/-! ### Bit-level facts about the masking arithmetic -/

theorem align_eq_mul_div (addr : Nat) (h : addr < 2 ^ 64) :
    align_addr_to_word addr = 8 * (addr / 8) := by
  unfold align_addr_to_word
  apply Nat.eq_of_testBit_eq
  intro i
  rw [Nat.testBit_land]
  rcases lt_or_le i 3 with h3 | h3
  · have h1 : ((2:Nat) ^ 64 - 8).testBit i = false := by
      rw [show (2:Nat) ^ 64 - 8 = (2 ^ 61 - 1) <<< 3 by rw [Nat.shiftLeft_eq]; norm_num,
        Nat.testBit_shiftLeft]
      simp only [ge_iff_le, Nat.not_le.mpr h3, decide_False, Bool.false_and]
    have h2 : (8 * (addr / 8)).testBit i = false := by
      rw [show 8 * (addr / 8) = (addr / 8) <<< 3 by rw [Nat.shiftLeft_eq]; ring,
        Nat.testBit_shiftLeft]
      simp only [ge_iff_le, Nat.not_le.mpr h3, decide_False, Bool.false_and]
    rw [h1, h2, Bool.and_false]
  · rcases lt_or_le i 64 with h64 | h64
    · have h1 : ((2:Nat) ^ 64 - 8).testBit i = true := by
        rw [show (2:Nat) ^ 64 - 8 = (2 ^ 61 - 1) <<< 3 by rw [Nat.shiftLeft_eq]; norm_num,
          Nat.testBit_shiftLeft, Nat.testBit_two_pow_sub_one]
        simp only [ge_iff_le, Bool.and_eq_true, decide_eq_true_eq]
        omega
      have h2 : (8 * (addr / 8)).testBit i = addr.testBit i := by
        rw [show 8 * (addr / 8) = (addr >>> 3) <<< 3 by
            rw [Nat.shiftLeft_eq, Nat.shiftRight_eq_div_pow]; ring,
          Nat.testBit_shiftLeft, Nat.testBit_shiftRight]
        rw [show 3 + (i - 3) = i by omega]
        simp only [ge_iff_le, h3, decide_True, Bool.true_and]
      rw [h1, h2, Bool.and_true]
    · have h1 : addr.testBit i = false :=
        Nat.testBit_lt_two_pow (lt_of_lt_of_le h (Nat.pow_le_pow_right (by norm_num) h64))
      have h2 : (8 * (addr / 8)).testBit i = false := by
        apply Nat.testBit_lt_two_pow
        calc 8 * (addr / 8) ≤ addr := Nat.mul_div_le addr 8
        _ < 2 ^ 64 := h
        _ ≤ 2 ^ i := Nat.pow_le_pow_right (by norm_num) h64
      rw [h1, h2, Bool.false_and]

theorem align_offset (addr : Nat) (h : addr < 2 ^ 64) :
    addr - align_addr_to_word addr = addr % 8 := by
  rw [align_eq_mul_div addr h]
  omega

theorem testBit_of_byte (v j : Nat) (hv : v < 256) (hj : 8 ≤ j) : v.testBit j = false := by
  apply Nat.testBit_lt_two_pow
  calc v < 256 := hv
  _ = 2 ^ 8 := by norm_num
  _ ≤ 2 ^ j := Nat.pow_le_pow_right (by norm_num) hj

theorem testBit_of_word (w i : Nat) (hw : w < 2 ^ 64) (hi : 64 ≤ i) : w.testBit i = false :=
  Nat.testBit_lt_two_pow (lt_of_lt_of_le hw (Nat.pow_le_pow_right (by norm_num) hi))

theorem testBit_byteSet (w v s i : Nat) (hs : s ≤ 56) (hv : v < 256) (hw : w < 2 ^ 64) :
    (byteSet w s v).testBit i =
      if s ≤ i ∧ i < s + 8 then v.testBit (i - s) else w.testBit i := by
  have hff : ∀ j : Nat, (0xff : Nat).testBit j = decide (j < 8) := fun j =>
    Nat.testBit_two_pow_sub_one 8 j
  have hvbit : ∀ j : Nat, 8 ≤ j → v.testBit j = false := fun j hj =>
    testBit_of_byte v j hv hj
  unfold byteSet wordMask
  rw [Nat.testBit_lor, Nat.testBit_land, Nat.testBit_xor, Nat.testBit_shiftLeft,
    Nat.testBit_shiftLeft, Nat.testBit_two_pow_sub_one, hff]
  rcases lt_or_le i 64 with h64 | h64
  · rcases lt_or_le i s with hlt | hge
    · rw [if_neg (by omega : ¬ (s ≤ i ∧ i < s + 8))]
      simp only [ge_iff_le, Nat.not_le.mpr hlt, decide_False, h64, decide_True,
        Bool.false_and, Bool.false_xor, Bool.and_true, Bool.or_false]
    · rcases lt_or_le i (s + 8) with hin | hout
      · rw [if_pos ⟨hge, hin⟩]
        simp only [ge_iff_le, hge, decide_True, show i - s < 8 by omega, decide_True, h64,
          Bool.true_and, Bool.true_xor, Bool.not_true, Bool.and_false, Bool.false_or]
      · rw [if_neg (by omega : ¬ (s ≤ i ∧ i < s + 8))]
        simp only [ge_iff_le, hge, decide_True, Nat.not_lt.mpr
          (show (8:Nat) ≤ i - s by omega), decide_False, h64, Bool.true_and, Bool.and_false,
          Bool.false_xor, Bool.and_true, hvbit (i - s) (by omega), Bool.or_false]
  · have hwbit : w.testBit i = false := testBit_of_word w i hw h64
    rw [if_neg (by omega : ¬ (s ≤ i ∧ i < s + 8)), hwbit, hvbit (i - s) (by omega)]
    simp only [Bool.false_and, Bool.and_false, Bool.false_or, Bool.or_false]

theorem testBit_byteGet (w s j : Nat) :
    (byteGet w s).testBit j = (w.testBit (s + j) && decide (j < 8)) := by
  unfold byteGet
  rw [Nat.testBit_land, Nat.testBit_shiftRight,
    show ((0xff : Nat)) = 2 ^ 8 - 1 from rfl, Nat.testBit_two_pow_sub_one]

theorem byteGet_lt (w s : Nat) : byteGet w s < 256 :=
  lt_of_le_of_lt (Nat.and_le_right) (by norm_num)

theorem byteSet_lt (w v s : Nat) (hs : s ≤ 56) (hv : v < 256) (hw : w < 2 ^ 64) :
    byteSet w s v < 2 ^ 64 := by
  unfold byteSet
  apply Nat.or_lt_two_pow
  · exact lt_of_le_of_lt Nat.and_le_left hw
  · rw [Nat.shiftLeft_eq]
    have h2 : (0:Nat) < 2 ^ s := Nat.pos_pow_of_pos s (by norm_num)
    calc v * 2 ^ s < 256 * 2 ^ s := (Nat.mul_lt_mul_right h2).mpr hv
    _ = 2 ^ (8 + s) := by rw [pow_add]; norm_num
    _ ≤ 2 ^ 64 := Nat.pow_le_pow_right (by norm_num) (by omega)

theorem byteGet_byteSet_same (w v s : Nat) (hs : s ≤ 56) (hv : v < 256) (hw : w < 2 ^ 64) :
    byteGet (byteSet w s v) s = v := by
  apply Nat.eq_of_testBit_eq
  intro j
  rw [testBit_byteGet, testBit_byteSet w v s (s + j) hs hv hw]
  rcases lt_or_le j 8 with hj | hj
  · have h : s ≤ s + j ∧ s + j < s + 8 := by omega
    rw [if_pos h, show s + j - s = j by omega]
    simp only [hj, decide_True, Bool.and_true]
  · have h : ¬ (s ≤ s + j ∧ s + j < s + 8) := by omega
    rw [if_neg h]
    simp only [Nat.not_lt.mpr hj, decide_False, Bool.and_false]
    exact (testBit_of_byte v j hv hj).symm

theorem byteSet_byteSet_restore (w v s : Nat) (hs : s ≤ 56) (hv : v < 256)
    (hw : w < 2 ^ 64) :
    byteSet (byteSet w s v) s (byteGet w s) = w := by
  apply Nat.eq_of_testBit_eq
  intro i
  rw [testBit_byteSet _ _ s i hs (byteGet_lt w s)
    (byteSet_lt w v s hs hv hw)]
  rcases lt_or_le i 64 with h64 | h64
  · by_cases hin : s ≤ i ∧ i < s + 8
    · rw [if_pos hin, testBit_byteGet, show s + (i - s) = i by omega]
      simp only [show i - s < 8 by omega, decide_True, Bool.and_true]
    · rw [if_neg hin, testBit_byteSet w v s i hs hv hw, if_neg hin]
  · have hin : ¬ (s ≤ i ∧ i < s + 8) := by omega
    rw [if_neg hin, testBit_byteSet w v s i hs hv hw, if_neg hin]

theorem write_byte_spec (mem : Mem) (addr val : Nat) (h : addr < 2 ^ 64) :
    write_byte mem addr val =
      (byteGet (mem (align_addr_to_word addr)) (8 * (addr % 8)),
       fun a => if a = align_addr_to_word addr then
         byteSet (mem (align_addr_to_word addr)) (8 * (addr % 8)) val else mem a) := by
  show (byteGet (mem (align_addr_to_word addr)) (8 * (addr - align_addr_to_word addr)),
      fun a => if a = align_addr_to_word addr then
        byteSet (mem (align_addr_to_word addr)) (8 * (addr - align_addr_to_word addr)) val
      else mem a) = _
  rw [align_offset addr h]

theorem read_byte_spec (mem : Mem) (addr : Nat) (h : addr < 2 ^ 64) :
    read_byte mem addr = byteGet (mem (align_addr_to_word addr)) (8 * (addr % 8)) := by
  unfold read_byte
  rw [align_offset addr h]

theorem offset_shift_le (addr : Nat) : 8 * (addr % 8) ≤ 56 := by omega

/-! ### Claim theorems: address alignment and byte patching -/

/-- C10. For every address `addr` (a `usize`, so `addr < 2 ^ 64`),
`align_addr_to_word addr` equals `8 * (addr / 8)`, the greatest multiple of
the machine word size `size_of::<usize>() = 8` not exceeding `addr`; hence
the byte offset `addr - aligned_addr` computed by `write_byte` lies in
`[0, 8)` and the bit shift `8 * byte_offset` is strictly below the word's
bit width 64. -/
theorem c10_align_addr_to_word_correct (addr : Nat) (h : addr < 2 ^ 64) :
    align_addr_to_word addr = 8 * (addr / 8) ∧
    align_addr_to_word addr ≤ addr ∧
    addr - align_addr_to_word addr < 8 ∧
    8 * (addr - align_addr_to_word addr) < 64 := by
  have halign := align_eq_mul_div addr h
  refine ⟨halign, ?_, ?_, ?_⟩ <;> rw [halign] <;> omega

/-- Witness for C10 at the concrete address `12345`. -/
theorem c10_align_addr_to_word_correct_witness :
    align_addr_to_word 12345 = 8 * (12345 / 8) ∧
    align_addr_to_word 12345 ≤ 12345 ∧
    12345 - align_addr_to_word 12345 < 8 ∧
    8 * (12345 - align_addr_to_word 12345) < 64 :=
  c10_align_addr_to_word_correct 12345 (by decide)

/-- C2. Installing the trap byte `0xcc` at `a` via `write_byte` (which
returns the displaced original byte) and then calling `write_byte` again at
`a` with that returned byte leaves the containing word — and hence the byte
at `a` — bit-identical to its pre-install contents. -/
theorem c2_write_byte_roundtrip (mem : Mem) (addr : Nat) (ha : addr < 2 ^ 64)
    (hm : mem (align_addr_to_word addr) < 2 ^ 64) :
    (write_byte (write_byte mem addr 0xcc).2 addr (write_byte mem addr 0xcc).1).2
        (align_addr_to_word addr) = mem (align_addr_to_word addr) ∧
    read_byte (write_byte (write_byte mem addr 0xcc).2 addr (write_byte mem addr 0xcc).1).2
        addr = read_byte mem addr := by
  have hs : 8 * (addr % 8) ≤ 56 := offset_shift_le addr
  have hoff := align_offset addr ha
  have hrestore :
      byteSet (byteSet (mem (align_addr_to_word addr)) (8 * (addr % 8)) 0xcc)
        (8 * (addr % 8)) (byteGet (mem (align_addr_to_word addr)) (8 * (addr % 8)))
      = mem (align_addr_to_word addr) :=
    byteSet_byteSet_restore _ 0xcc _ hs (by norm_num) hm
  simp only [write_byte, read_byte, hoff, eq_self_iff_true, if_true]
  exact ⟨hrestore, by rw [hrestore]⟩

/-- Concrete one-word memory used by the C2 witness. -/
def memC2 : Mem := fun _ => 0x1122334455667788

/-- Witness for C2 at address `12345` on the concrete memory `memC2`. -/
theorem c2_write_byte_roundtrip_witness :
    (write_byte (write_byte memC2 12345 0xcc).2 12345 (write_byte memC2 12345 0xcc).1).2
        (align_addr_to_word 12345) = memC2 (align_addr_to_word 12345) ∧
    read_byte (write_byte (write_byte memC2 12345 0xcc).2 12345
        (write_byte memC2 12345 0xcc).1).2 12345 = read_byte memC2 12345 :=
  c2_write_byte_roundtrip memC2 12345 (by decide) (by decide)

/-! ### Process status model (inferior.rs `Status`, nix `WaitStatus`) -/

/-- The POSIX signals the debugger distinguishes (`nix::sys::signal`). -/
inductive Signal
  | SIGTRAP
  | SIGKILL
  | SIGINT
  | SIGSEGV
  | SIGTERM
  deriving DecidableEq

/-- The enum `Status` from inferior.rs: the three process-status variants. -/
inductive Status
  | Stopped (signal : Signal) (rip : Nat)
  | Exited (code : Int)
  | Signaled (signal : Signal)
  deriving DecidableEq

/-- The shapes `nix::sys::wait::WaitStatus` can take (pids as `Nat`). -/
inductive WaitStatus
  | Exited (pid : Nat) (code : Int)
  | Signaled (pid : Nat) (signal : Signal) (coreDumped : Bool)
  | Stopped (pid : Nat) (signal : Signal)
  | PtraceEvent (pid : Nat) (signal : Signal) (event : Int)
  | PtraceSyscall (pid : Nat)
  | Continued (pid : Nat)
  | StillAlive
  deriving DecidableEq

/-- The errno values relevant to the modelled OS calls (`nix::Error`). -/
inductive NixError
  | ESRCH
  | ECHILD
  | EIO
  | EFAULT
  | EPERM
  deriving DecidableEq

/-- Outcome of running a fragment of Rust code that may `panic!` (or
`unwrap`/`expect` on an error).  A panic aborts the debugger process and is
distinct from a recoverable `Result` error. -/
inductive RunOutcome (α : Type)
  | ok (val : α)
  | panic
  deriving DecidableEq

/-- The method `Inferior::wait` from inferior.rs: classifies the raw `waitpid` result
(the `waitpid` call and the `getregs` read of `%rip` are supplied as oracle
results).  `?` on `waitpid`/`getregs` propagates the error; any wait-status
shape other than Exited/Signaled/Stopped hits the `panic!` arm. -/
def wait (waitpidResult : Except NixError WaitStatus)
    (getregsRip : Except NixError Nat) : RunOutcome (Except NixError Status) :=
  match waitpidResult with
  | .error e => .ok (.error e)
  | .ok (.Exited _pid code) => .ok (.ok (.Exited code))
  | .ok (.Signaled _pid signal _cd) => .ok (.ok (.Signaled signal))
  | .ok (.Stopped _pid signal) =>
    match getregsRip with
    | .error e => .ok (.error e)
    | .ok rip => .ok (.ok (.Stopped signal rip))
  | .ok _ => .panic

/-- C6. `Inferior::wait` classifies every wait result into exactly the
three `Status` variants — `Exited(code)` for normal exit, `Signaled(sig)`
for signal termination, `Stopped(sig, rip)` with the instruction pointer
captured at the stop — and every other wait-result shape aborts via
`panic!` (an unrecoverable internal-invariant violation), never a
recoverable error. -/
theorem c6_wait_classification :
    (∀ (g : Except NixError Nat) (p : Nat) (code : Int),
        wait (.ok (.Exited p code)) g = .ok (.ok (.Exited code))) ∧
    (∀ (g : Except NixError Nat) (p : Nat) (sig : Signal) (cd : Bool),
        wait (.ok (.Signaled p sig cd)) g = .ok (.ok (.Signaled sig))) ∧
    (∀ (p : Nat) (sig : Signal) (rip : Nat),
        wait (.ok (.Stopped p sig)) (.ok rip) = .ok (.ok (.Stopped sig rip))) ∧
    (∀ (g : Except NixError Nat) (p : Nat) (sig : Signal) (ev : Int),
        wait (.ok (.PtraceEvent p sig ev)) g = .panic) ∧
    (∀ (g : Except NixError Nat) (p : Nat), wait (.ok (.PtraceSyscall p)) g = .panic) ∧
    (∀ (g : Except NixError Nat) (p : Nat), wait (.ok (.Continued p)) g = .panic) ∧
    (∀ (g : Except NixError Nat), wait (.ok .StillAlive) g = .panic) :=
  ⟨fun _ _ _ => rfl, fun _ _ _ _ => rfl, fun _ _ _ => rfl, fun _ _ _ _ => rfl,
   fun _ _ => rfl, fun _ _ => rfl, fun _ => rfl⟩

/-! ### More byte-patching lemmas, for breakpoint installation -/

theorem byteGet_byteSet_other (w v ks kt : Nat) (hne : ks ≠ kt) (hks : ks < 8) (_hkt : kt < 8)
    (hv : v < 256) (hw : w < 2 ^ 64) :
    byteGet (byteSet w (8 * ks) v) (8 * kt) = byteGet w (8 * kt) := by
  apply Nat.eq_of_testBit_eq
  intro j
  rw [testBit_byteGet, testBit_byteGet,
    testBit_byteSet w v (8 * ks) (8 * kt + j) (by omega) hv hw]
  rcases lt_or_le j 8 with hj | hj
  · rw [if_neg (by omega)]
  · simp only [Nat.not_lt.mpr hj, decide_False, Bool.and_false]

theorem read_write_self (mem : Mem) (a : Nat) (ha : a < 2 ^ 64) (hmem : Mem64 mem) :
    read_byte (write_byte mem a 0xcc).2 a = 0xcc := by
  rw [write_byte_spec mem a 0xcc ha, read_byte_spec _ a ha]
  simp only [eq_self_iff_true, if_true]
  exact byteGet_byteSet_same _ 0xcc _ (offset_shift_le a) (by norm_num) (hmem _)

theorem write_byte_mem64 (mem : Mem) (a v : Nat) (ha : a < 2 ^ 64) (hv : v < 256)
    (hmem : Mem64 mem) : Mem64 (write_byte mem a v).2 := by
  intro x
  rw [write_byte_spec mem a v ha]
  by_cases h : x = align_addr_to_word a
  · simp only [h, eq_self_iff_true, if_true]
    exact byteSet_lt _ v _ (offset_shift_le a) hv (hmem _)
  · simp only [h, if_false]
    exact hmem x

theorem read_write_preserves_cc (mem : Mem) (a b : Nat) (ha : a < 2 ^ 64) (hb : b < 2 ^ 64)
    (hmem : Mem64 mem) (hcc : read_byte mem b = 0xcc) :
    read_byte (write_byte mem a 0xcc).2 b = 0xcc := by
  rw [read_byte_spec mem b hb] at hcc
  rw [write_byte_spec mem a 0xcc ha, read_byte_spec _ b hb]
  by_cases hword : align_addr_to_word b = align_addr_to_word a
  · simp only [hword, eq_self_iff_true, if_true]
    by_cases hk : b % 8 = a % 8
    · rw [hk]
      exact byteGet_byteSet_same _ 0xcc _ (offset_shift_le a) (by norm_num) (hmem _)
    · rw [byteGet_byteSet_other _ 0xcc (a % 8) (b % 8) (fun h => hk h.symm)
        (Nat.mod_lt a (by norm_num)) (Nat.mod_lt b (by norm_num)) (by norm_num) (hmem _)]
      rw [hword] at hcc
      exact hcc
  · simp only [hword, if_false]
    exact hcc

/-! ### Launch (`Inferior::new`) and the breakpoint-install loop -/

/-- A fallible `ptrace` memory patch: `Inferior::write_byte` together with
the possibility that the ptrace word read/write at the containing aligned
address fails (invalid or unmapped address), in which case the `?` operators
in `write_byte` return the error. -/
def write_byteE (fail : Nat → Bool) (mem : Mem) (addr val : Nat) :
    Except NixError (Nat × Mem) :=
  if fail (align_addr_to_word addr) then .error .EFAULT
  else .ok (write_byte mem addr val)

/-- The breakpoint-install loop shared by `Inferior::new` and
`Inferior::cont`: `for rid in break_point_list { self.write_byte(*rid, 0xcc).unwrap(); }`.
The `.unwrap()` turns any patch failure into a panic. -/
def install_breakpoints (fail : Nat → Bool) (mem : Mem) : List Nat → RunOutcome Mem
  | [] => .ok mem
  | a :: rest =>
    match write_byteE fail mem a 0xcc with
    | .error _ => .panic
    | .ok (_, mem1) => install_breakpoints fail mem1 rest

/-- The constructor `Inferior::new` from inferior.rs.  `spawnOk` is whether `cmd.spawn()`
succeeded; the first `wait` is performed on the oracle results
`waitpidResult`/`getregsRip`.  On a SIGTRAP first stop every breakpoint in
the list is installed (unwrap-panicking on failure) and the handle (here:
the patched memory) is returned; any other first wait outcome yields
`None`. -/
def new (spawnOk : Bool) (waitpidResult : Except NixError WaitStatus)
    (getregsRip : Except NixError Nat) (break_point_list : List Nat)
    (fail : Nat → Bool) (mem : Mem) : RunOutcome (Option Mem) :=
  match spawnOk with
  | false => .ok none
  | true =>
    match wait waitpidResult getregsRip with
    | .ok (.ok (.Stopped sig _rip)) =>
      if sig = .SIGTRAP then
        match install_breakpoints fail mem break_point_list with
        | .ok mem1 => .ok (some mem1)
        | .panic => .panic
      else .ok none
    | .panic => .panic
    | .ok _ => .ok none

theorem install_mem64 (fail : Nat → Bool) : ∀ (bps : List Nat) (mem mem' : Mem),
    Mem64 mem → (∀ a ∈ bps, a < 2 ^ 64) →
    install_breakpoints fail mem bps = .ok mem' → Mem64 mem'
  | [], mem, mem', hmem, _, h => by
    simp only [install_breakpoints] at h
    cases h
    exact hmem
  | a :: rest, mem, mem', hmem, hbps, h => by
    simp only [install_breakpoints, write_byteE] at h
    by_cases hf : fail (align_addr_to_word a)
    · rw [if_pos hf] at h
      cases h
    · rw [if_neg hf] at h
      exact install_mem64 fail rest _ mem'
        (write_byte_mem64 mem a 0xcc (hbps a (by simp)) (by norm_num) hmem)
        (fun b hb => hbps b (by simp [hb])) h

theorem install_preserves_cc (fail : Nat → Bool) : ∀ (bps : List Nat) (mem mem' : Mem)
    (b : Nat), Mem64 mem → (∀ a ∈ bps, a < 2 ^ 64) → b < 2 ^ 64 →
    read_byte mem b = 0xcc →
    install_breakpoints fail mem bps = .ok mem' → read_byte mem' b = 0xcc
  | [], mem, mem', b, _, _, _, hcc, h => by
    simp only [install_breakpoints] at h
    cases h
    exact hcc
  | a :: rest, mem, mem', b, hmem, hbps, hb, hcc, h => by
    simp only [install_breakpoints, write_byteE] at h
    by_cases hf : fail (align_addr_to_word a)
    · rw [if_pos hf] at h
      cases h
    · rw [if_neg hf] at h
      exact install_preserves_cc fail rest _ mem' b
        (write_byte_mem64 mem a 0xcc (hbps a (by simp)) (by norm_num) hmem)
        (fun x hx => hbps x (by simp [hx])) hb
        (read_write_preserves_cc mem a b (hbps a (by simp)) hb hmem hcc) h

theorem install_all_cc (fail : Nat → Bool) : ∀ (bps : List Nat) (mem mem' : Mem),
    Mem64 mem → (∀ a ∈ bps, a < 2 ^ 64) →
    install_breakpoints fail mem bps = .ok mem' →
    ∀ a ∈ bps, read_byte mem' a = 0xcc
  | [], _, _, _, _, _ => by
    intro a ha
    cases ha
  | a :: rest, mem, mem', hmem, hbps, h => by
    intro x hx
    simp only [install_breakpoints, write_byteE] at h
    by_cases hf : fail (align_addr_to_word a)
    · rw [if_pos hf] at h
      cases h
    · rw [if_neg hf] at h
      have ha64 : a < 2 ^ 64 := hbps a (by simp)
      have hmem1 : Mem64 (write_byte mem a 0xcc).2 :=
        write_byte_mem64 mem a 0xcc ha64 (by norm_num) hmem
      rcases List.mem_cons.mp hx with hxa | hxr
      · subst hxa
        exact install_preserves_cc fail rest _ mem' x hmem1
          (fun y hy => hbps y (by simp [hy])) ha64
          (read_write_self mem x ha64 hmem) h
      · exact install_all_cc fail rest _ mem' hmem1
          (fun y hy => hbps y (by simp [hy])) h x hxr

/-! ### Claim theorems: launch -/

/-- C3. Launch performs exactly one initial wait-and-check (the model of
`Inferior::new` consults a single first wait result): if that first stop is
a stop by a signal other than SIGTRAP, `new` returns `None` (no live
handle); and whenever `new` reports success, the spawn succeeded and the
single first wait was a SIGTRAP stop. -/
theorem c3_launch_first_stop_check (spawnOk : Bool) (w : Except NixError WaitStatus)
    (g : Except NixError Nat) (bps : List Nat) (fail : Nat → Bool) (mem : Mem) :
    (∀ sig rip, wait w g = .ok (.ok (.Stopped sig rip)) → sig ≠ .SIGTRAP →
        new spawnOk w g bps fail mem = .ok none) ∧
    (∀ mem', new spawnOk w g bps fail mem = .ok (some mem') →
        spawnOk = true ∧ ∃ rip, wait w g = .ok (.ok (.Stopped .SIGTRAP rip))) := by
  constructor
  · intro sig rip hw hsig
    cases spawnOk with
    | false => rfl
    | true =>
      simp only [new, hw]
      rw [if_neg hsig]
  · intro mem' hnew
    cases spawnOk with
    | false => cases hnew
    | true =>
      refine ⟨rfl, ?_⟩
      simp only [new] at hnew
      split at hnew
      · next sig rip heq =>
          by_cases hsig : sig = Signal.SIGTRAP
          · subst hsig
            exact ⟨rip, heq⟩
          · rw [if_neg hsig] at hnew
            cases hnew
      · cases hnew
      · cases hnew

/-- Witness for C3: a first stop by SIGINT (not SIGTRAP) makes launch
return `None`. -/
theorem c3_launch_first_stop_check_witness :
    new true (.ok (.Stopped 7 .SIGINT)) (.ok 100) [] (fun _ => false) memC2 = .ok none :=
  (c3_launch_first_stop_check true (.ok (.Stopped 7 .SIGINT)) (.ok 100) [] (fun _ => false)
    memC2).1 .SIGINT 100 rfl (by decide)

/-- C4. On every successful launch, every breakpoint address in the
table has its trap byte `0xcc` installed in the fresh process image by the
time the handle is returned. -/
theorem c4_launch_installs_all_breakpoints (spawnOk : Bool)
    (w : Except NixError WaitStatus) (g : Except NixError Nat) (bps : List Nat)
    (fail : Nat → Bool) (mem mem' : Mem) (hmem : Mem64 mem)
    (hbps : ∀ a ∈ bps, a < 2 ^ 64)
    (hnew : new spawnOk w g bps fail mem = .ok (some mem')) :
    ∀ a ∈ bps, read_byte mem' a = 0xcc := by
  cases spawnOk with
  | false => cases hnew
  | true =>
    simp only [new] at hnew
    split at hnew
    · next sig rip heq =>
        by_cases hsig : sig = Signal.SIGTRAP
        · rw [if_pos hsig] at hnew
          rcases hinst : install_breakpoints fail mem bps with mem1 | _
          · rw [hinst] at hnew
            cases hnew
            exact install_all_cc fail bps mem mem' hmem hbps hinst
          · rw [hinst] at hnew
            cases hnew
        · rw [if_neg hsig] at hnew
          cases hnew
    · cases hnew
    · cases hnew

/-- All-zero memory used by the C4 witness. -/
def memZero : Mem := fun _ => 0

theorem memZero_mem64 : Mem64 memZero := fun _ => Nat.pos_pow_of_pos 64 (by norm_num)

/-- The memory produced by the C4 witness launch. -/
def memC4 : Mem :=
  match new true (.ok (.Stopped 7 .SIGTRAP)) (.ok 0x1000) [4096, 4098] (fun _ => false)
      memZero with
  | .ok (some m) => m
  | _ => memZero

/-- Witness for C4: launching with breakpoints at `4096` and `4098` installs
`0xcc` at both addresses. -/
theorem c4_launch_installs_all_breakpoints_witness :
    new true (.ok (.Stopped 7 .SIGTRAP)) (.ok 0x1000) [4096, 4098] (fun _ => false)
      memZero = .ok (some memC4) ∧
    ∀ a ∈ ([4096, 4098] : List Nat), read_byte memC4 a = 0xcc := by
  have hnew : new true (.ok (.Stopped 7 .SIGTRAP)) (.ok 0x1000) [4096, 4098]
      (fun _ => false) memZero = .ok (some memC4) := rfl
  refine ⟨hnew, ?_⟩
  exact c4_launch_installs_all_breakpoints true (.ok (.Stopped 7 .SIGTRAP)) (.ok 0x1000)
    [4096, 4098] (fun _ => false) memZero memC4 memZero_mem64
    (fun a ha => by fin_cases ha <;> decide) hnew

/-! ### Resume (`Inferior::cont`), error path -/

/-- The method `Inferior::cont` from inferior.rs: re-write the trap byte at every table
address (each `write_byte` result is `.unwrap()`ed, so a patch failure
panics), then issue `ptrace::cont` — an `Err` from it hits the
`panic!("have't proccessed")` arm — and block in `wait` for the next status
change, returning its (recoverable) result. -/
def cont (fail : Nat → Bool) (mem : Mem) (break_point_list : List Nat)
    (contResult : Except NixError Unit) (waitpidResult : Except NixError WaitStatus)
    (getregsRip : Except NixError Nat) : RunOutcome (Mem × Except NixError Status) :=
  match install_breakpoints fail mem break_point_list with
  | .panic => .panic
  | .ok mem1 =>
    match contResult with
    | .ok _ =>
      match wait waitpidResult getregsRip with
      | .panic => .panic
      | .ok st => .ok (mem1, st)
    | .error _ => .panic

/-- Address map making the ptrace word access at address 8 fail
(an unmapped breakpoint address). -/
def fail8 : Nat → Bool := fun a => a == 8

/-- C5 (code bug). A failing memory patch during resume or launch does
NOT surface as a recoverable result: the `.unwrap()` in the install loop
panics, crashing the debugger.  Evaluated at the concrete failing input:
breakpoint address 8 whose containing word is unmapped. -/
theorem c5_patch_failure_panics :
    cont fail8 memZero [8] (.ok ()) (.ok (.Exited 1 0)) (.ok 0) = .panic ∧
    new true (.ok (.Stopped 7 .SIGTRAP)) (.ok 0) [8] fail8 memZero = .panic ∧
    cont (fun _ => false) memZero [] (.error .EPERM) (.ok (.Exited 1 0)) (.ok 0) = .panic :=
  ⟨rfl, rfl, rfl⟩

/-! ### Kill and reap (`Inferior::kill_and_reap`) -/

/-- State of the wrapped OS process as seen by the kernel. -/
inductive ProcState
  | running
  | zombie (ws : WaitStatus)
  | reaped
  deriving DecidableEq

/-- Modelled from the spec: the OS send-signal primitive (§6 "send-signal,
terminate"), which is not part of src/.  `kill(pid, SIGKILL)` — what
`std::process::Child::kill` issues, since the child was never reaped through
the `Child`'s own wait — succeeds while the pid exists (live or zombie) and
fails with ESRCH once the pid has been reaped; killing a live process turns
it into a zombie terminated by SIGKILL. -/
def os_kill (p : ProcState) (pid : Nat) : Except NixError ProcState :=
  match p with
  | .running => .ok (.zombie (.Signaled pid .SIGKILL false))
  | .zombie ws => .ok (.zombie ws)
  | .reaped => .error .ESRCH

/-- Modelled from the spec: the OS block-for-status-change primitive (§6),
not part of src/.  A blocking `waitpid` on a zombie returns its termination
status and reaps it; on an already-reaped pid it fails with ECHILD.  (The
blocking-on-a-live-process case cannot arise at the modelled call site: in
`kill_and_reap` the wait always follows a successful SIGKILL.) -/
def os_waitpid (p : ProcState) : Except NixError (WaitStatus × ProcState) :=
  match p with
  | .running => .error .ECHILD
  | .zombie ws => .ok (ws, .reaped)
  | .reaped => .error .ECHILD

/-- The method `Inferior::kill_and_reap` from inferior.rs:
`self.child.kill().expect(...)` then `self.wait(None).expect(...)` — both
`.expect` calls panic on error; the wait's waitpid result is determined by
the process state via `os_waitpid` and classified by `wait`. -/
def kill_and_reap (p : ProcState) (pid : Nat) (getregsRip : Except NixError Nat) :
    RunOutcome ProcState :=
  match os_kill p pid with
  | .error _ => .panic
  | .ok p1 =>
    match os_waitpid p1 with
    | .error _ => .panic
    | .ok (ws, p2) =>
      match wait (.ok ws) getregsRip with
      | .panic => .panic
      | .ok (.error _) => .panic
      | .ok (.ok _) => .ok p2

/-- C7 (code bug). Calling `kill_and_reap` twice on the same handle is NOT
tolerated: the first call kills and reaps (no zombie remains), but the
second call's `child.kill()` gets ESRCH for the already-reaped pid and the
`.expect` panics, instead of treating the process as already reaped. -/
theorem c7_kill_and_reap_twice_panics :
    kill_and_reap .running 42 (.ok 0) = .ok .reaped ∧
    kill_and_reap .reaped 42 (.ok 0) = .panic :=
  ⟨rfl, rfl⟩

/-! ### Backtrace (`Inferior::print_backtrace`) -/

/-- The method `Inferior::print_backtrace` from inferior.rs, with the Symbol Resolver
(`get_function_from_addr` / `get_line_from_addr`) and the ptrace word reads
supplied as oracles and the reported `(function, line)` pairs collected in
order.  Every `.unwrap()` in the loop (unresolvable address, failed memory
read) is a panic.  The source loop is unbounded; `fuel` bounds the walk in
the model, and `none` means the fuel ran out before the walk terminated. -/
def print_backtrace (get_function_from_addr : Nat → Option (List Char))
    (get_line_from_addr : Nat → Option Nat) (rmem : Nat → Except NixError Nat) :
    Nat → Nat → Nat → Option (RunOutcome (List (List Char × Nat)))
  | 0, _, _ => none
  | fuel + 1, rip_ptr, base_ptr =>
    match get_function_from_addr rip_ptr, get_line_from_addr rip_ptr with
    | some func_name, some line =>
      if func_name = ['m', 'a', 'i', 'n'] then some (.ok [(func_name, line)])
      else
        match rmem (base_ptr + 8), rmem base_ptr with
        | .ok rip2, .ok base2 =>
          match print_backtrace get_function_from_addr get_line_from_addr rmem
              fuel rip2 base2 with
          | none => none
          | some .panic => some .panic
          | some (.ok frames) => some (.ok ((func_name, line) :: frames))
        | _, _ => some .panic
    | _, _ => some .panic

/-- C8. The backtrace walk reports the frame at the current instruction
pointer; it stops after the frame whose function name is the entry function
`"main"`, and otherwise continues with the new instruction pointer read at
`[frame base + 8]` and the new frame base read at `[frame base]`.
Consequently a process stopped inside `main` yields exactly one frame,
named `main`. -/
theorem c8_backtrace_walk (gf : Nat → Option (List Char)) (gl : Nat → Option Nat)
    (rmem : Nat → Except NixError Nat) (fuel rip base : Nat) :
    (∀ line, gf rip = some ['m', 'a', 'i', 'n'] → gl rip = some line →
        print_backtrace gf gl rmem (fuel + 1) rip base =
          some (.ok [(['m', 'a', 'i', 'n'], line)])) ∧
    (∀ f line rip2 base2, gf rip = some f → f ≠ ['m', 'a', 'i', 'n'] → gl rip = some line →
        rmem (base + 8) = .ok rip2 → rmem base = .ok base2 →
        print_backtrace gf gl rmem (fuel + 1) rip base =
          match print_backtrace gf gl rmem fuel rip2 base2 with
          | none => none
          | some .panic => some .panic
          | some (.ok frames) => some (.ok ((f, line) :: frames))) := by
  constructor
  · intro line hf hl
    simp [print_backtrace, hf, hl]
  · intro f line rip2 base2 hf hne hl h1 h2
    simp [print_backtrace, hf, hl, hne, h1, h2]

/-- Resolver for the C8 witness: address 100 is inside `main`, line 5. -/
def gfC8 : Nat → Option (List Char) :=
  fun a => if a = 100 then some ['m', 'a', 'i', 'n'] else none

/-- Line resolver for the C8 witness. -/
def glC8 : Nat → Option Nat := fun a => if a = 100 then some 5 else none

/-- Witness for C8: stopped at address 100 inside `main`, the backtrace is
exactly one frame `("main", 5)`. -/
theorem c8_backtrace_walk_witness :
    print_backtrace gfC8 glC8 (fun _ => .error .EFAULT) 1 100 200 =
      some (.ok [(['m', 'a', 'i', 'n'], 5)]) :=
  (c8_backtrace_walk gfC8 glC8 (fun _ => .error .EFAULT) 0 100 200).1 5 rfl rfl

/-! ### The resume protocol against a modelled tracee (claim C1) -/

/-- Byte-addressed view of target memory, for running the tracee. -/
def BMem : Type := Nat → Nat

/-- Write one byte (the net effect of `write_byte` on the byte map). -/
def bset (mem : BMem) (a v : Nat) : BMem :=
  fun x => if x = a then v else mem x

/-- The install loop of `Inferior::cont`/`Inferior::new` at byte
granularity: write the trap byte `0xcc` at every breakpoint address. -/
def binstall (mem : BMem) : List Nat → BMem
  | [] => mem
  | a :: rest => binstall (bset mem a 0xcc) rest

/-- Modelled from the spec: the tracee execution semantics of the OS
resume-until-next-stop primitive (§4.3, §6), which is CPU/OS behaviour and
not part of src/.  In the modelled instruction set, byte `0xcc` is the trap
opcode — executing it stops the tracee with the instruction pointer just
past the trap byte (§4.3); byte `0xeb` is a two-byte absolute jump whose
target is the byte at `rip + 1`; any other byte is a one-byte instruction
that falls through. -/
def bstep (mem : BMem) (rip : Nat) : Nat :=
  if mem rip = 0xeb then mem (rip + 1) else rip + 1

/-- Modelled from the spec: run the tracee from `rip` until it executes a
trap byte, returning the stop rip (just past the trap), or `none` if it
does not trap within `fuel` steps. -/
def resume_run (mem : BMem) : Nat → Nat → Option Nat
  | 0, _ => none
  | fuel + 1, rip =>
    if mem rip = 0xcc then some (rip + 1)
    else resume_run mem fuel (bstep mem rip)

/-- The method `Inferior::cont` run against the modelled tracee: write the trap byte at
every table address (the source's install loop — no restore of the
displaced original byte, no single-step, no rip adjustment), then resume
and block until the next stop, which `wait` reports as
`Stopped(SIGTRAP, stop rip)`. -/
def cont_machine (break_point_list : List Nat) (mem : BMem) (rip : Nat) (fuel : Nat) :
    Option (BMem × Status) :=
  let mem1 := binstall mem break_point_list
  match resume_run mem1 fuel rip with
  | none => none
  | some stopRip => some (mem1, .Stopped .SIGTRAP stopRip)

/-- The sequence of ptrace operations `Inferior::cont` issues before
blocking in `wait`: one trap-byte write per table entry, then the plain
resume. -/
inductive PtraceOp
  | write (addr val : Nat)
  | singleStep
  | contResume
  deriving DecidableEq

/-- The operation trace of `Inferior::cont` (inferior.rs lines 98-110):
`write_byte(rid, 0xcc)` for each table entry, then `ptrace::cont`. -/
def cont_ops (break_point_list : List Nat) : List PtraceOp :=
  break_point_list.map (fun rid => .write rid 0xcc) ++ [.contResume]

/-- The C1 target program: a two-byte instruction `[0x01, 0x00]` at
addresses 0-1, then a jump `[0xeb, 0x00]` back to address 0 — a loop whose
first instruction carries the breakpoint. -/
def progC1 : BMem :=
  fun a => if a = 0 then 0x01 else if a = 1 then 0x00
    else if a = 2 then 0xeb else if a = 3 then 0x00 else 0x90

/-- Memory after launch installed the breakpoint at address 0. -/
def memC1 : BMem := binstall progC1 [0]

/-- Memory returned by the first `cont`. -/
def memC1' : BMem :=
  match cont_machine [0] memC1 0 10 with
  | some (m, _) => m
  | none => memC1

/-- C1 (code bug). Two consecutive `cont` calls with an unchanged
breakpoint table both return `Stopped` at the same instruction pointer 1
(the site the controller was already informed of and allowed past), because
`cont` only re-writes trap bytes and blind-continues: its operation trace
contains no restore of the displaced original byte `0x01` (still absent
from memory after both calls) and no single-step. -/
theorem c1_cont_retraps_same_site :
    (cont_machine [0] memC1 0 10).map Prod.snd = some (.Stopped .SIGTRAP 1) ∧
    (cont_machine [0] memC1' 1 10).map Prod.snd = some (.Stopped .SIGTRAP 1) ∧
    memC1' 0 = 0xcc ∧ progC1 0 = 0x01 ∧
    cont_ops [0] = [.write 0 0xcc, .contResume] ∧
    PtraceOp.singleStep ∉ cont_ops [0] := by
  refine ⟨rfl, rfl, rfl, rfl, rfl, by decide⟩

/-! ### Breakpoint specification parsing (debugger.rs `break_point`,
`parse_address`) -/

/-- Value of a hexadecimal digit (`usize::from_str_radix(_, 16)` accepts
both cases). -/
def hexDigit (c : Char) : Option Nat :=
  if '0' ≤ c ∧ c ≤ '9' then some (c.toNat - '0'.toNat)
  else if 'a' ≤ c ∧ c ≤ 'f' then some (c.toNat - 'a'.toNat + 10)
  else if 'A' ≤ c ∧ c ≤ 'F' then some (c.toNat - 'A'.toNat + 10)
  else none

/-- Value of a decimal digit. -/
def decDigit (c : Char) : Option Nat :=
  if '0' ≤ c ∧ c ≤ '9' then some (c.toNat - '0'.toNat) else none

/-- Accumulate digit values left to right. -/
def digitsVal (digit : Char → Option Nat) (radix : Nat) : List Char → Nat → Option Nat
  | [], acc => some acc
  | c :: rest, acc =>
    match digit c with
    | none => none
    | some d => digitsVal digit radix rest (acc * radix + d)

/-- Rust `usize::from_str_radix`: an optional leading `+`, then at least one
digit; rejects empty input, invalid digits and values that overflow
`usize`. -/
def from_str_radix (digit : Char → Option Nat) (radix : Nat) (s : List Char) :
    Option Nat :=
  let s2 := match s with
    | '+' :: rest => rest
    | other => other
  match s2 with
  | [] => none
  | _ =>
    match digitsVal digit radix s2 0 with
    | none => none
    | some v => if v < 2 ^ 64 then some v else none

/-- The function `parse_address` from debugger.rs: strip a case-insensitive `0x` prefix
(the lowercased copy is only used for the test; the slice `[2..]` is taken
from the original string), then parse the rest as hexadecimal. -/
def parse_address (addr : List Char) : Option Nat :=
  let addr_without_0x := match addr with
    | c0 :: c1 :: rest =>
      if c0 = '0' ∧ (c1 = 'x' ∨ c1 = 'X') then rest else addr
    | _ => addr
  from_str_radix hexDigit 16 addr_without_0x

/-- The test `args[0].to_lowercase().starts_with("*")` (lowercasing cannot produce
or remove a `*`). -/
def startsWithStar : List Char → Bool
  | c :: _ => c = '*'
  | [] => false

/-- The Symbol Resolver lookups `break_point` consults
(`get_addr_for_line`, `get_addr_for_function`). -/
structure DwarfOracle where
  get_addr_for_line : Nat → Option Nat
  get_addr_for_function : List Char → Option Nat

/-- Observable outcome of `Debugger::break_point`. -/
inductive BpOutcome
  | usage
  | inserted (addr : Nat)
  | notRecognized
  | panic
  deriving DecidableEq

/-- The method `Debugger::break_point` from debugger.rs: with other than one argument,
print usage and return; if the argument starts with `*`, parse the rest as
a hex address (`parse_address(..).unwrap()` — panics when invalid); else if
it parses as a decimal number, resolve it as a source line
(`get_addr_for_line(..).unwrap()` — panics when unknown); else if the
function-name lookup succeeds, use its address; otherwise print usage and
return without inserting.  `inserted rip` corresponds to
`break_points.insert(rip, ..)`. -/
def break_point (oracle : DwarfOracle) (args : List (List Char)) : BpOutcome :=
  match args with
  | [arg] =>
    if startsWithStar arg then
      match parse_address (arg.drop 1) with
      | none => .panic
      | some rip => .inserted rip
    else
      match from_str_radix decDigit 10 arg with
      | some line =>
        match oracle.get_addr_for_line line with
        | none => .panic
        | some rip => .inserted rip
      | none =>
        match oracle.get_addr_for_function arg with
        | some rip => .inserted rip
        | none => .notRecognized
  | _ => .usage

/-- C9 as the claim states it: try the three interpretations in order —
`*`-prefixed hexadecimal address, decimal source line, function name — the
first one that succeeds (produces an address) determines the breakpoint,
and a string matching none of the three is rejected without inserting a
breakpoint (never a panic). -/
def break_point_claimed (oracle : DwarfOracle) (arg : List Char) : BpOutcome :=
  match (if startsWithStar arg then parse_address (arg.drop 1) else none) with
  | some rip => .inserted rip
  | none =>
    match (from_str_radix decDigit 10 arg).bind oracle.get_addr_for_line with
    | some rip => .inserted rip
    | none =>
      match oracle.get_addr_for_function arg with
      | some rip => .inserted rip
      | none => .notRecognized

/-- A resolver that knows no lines and no functions. -/
def oracleNone : DwarfOracle :=
  ⟨fun _ => none, fun _ => none⟩

/-- C9 counterexample. On the argument `"*zz"` — which matches none of
the three interpretations — `break_point` panics (the `.unwrap()` on
`parse_address`) instead of rejecting without inserting, refuting the claim
as stated. -/
theorem c9_break_point_claim_counterexample :
    break_point oracleNone [['*', 'z', 'z']] = .panic ∧
    break_point_claimed oracleNone ['*', 'z', 'z'] = .notRecognized ∧
    break_point oracleNone [['*', 'z', 'z']] ≠
      break_point_claimed oracleNone ['*', 'z', 'z'] :=
  ⟨rfl, rfl, by decide⟩

/-- C9 amended: resolution is attempted in the fixed order `*`-prefixed
hexadecimal address, decimal source line number, function name, committing
to the first interpretation whose syntactic form matches; a committed
interpretation that fails to resolve (invalid hex after `*`, or a decimal
line the resolver does not know) aborts with a panic rather than falling
through, and a string matching no form and naming no known function is
rejected without inserting a breakpoint. -/
def break_point_amended (oracle : DwarfOracle) (arg : List Char) : BpOutcome :=
  if startsWithStar arg then
    match parse_address (arg.drop 1) with
    | some rip => .inserted rip
    | none => .panic
  else
    match from_str_radix decDigit 10 arg with
    | some line =>
      match oracle.get_addr_for_line line with
      | some rip => .inserted rip
      | none => .panic
    | none =>
      match oracle.get_addr_for_function arg with
      | some rip => .inserted rip
      | none => .notRecognized

/-- C9 (amended). The model `break_point` on a single argument behaves exactly as
the amended fixed-order resolution describes, for every resolver and every
argument string. -/
theorem c9_break_point_resolution_order (oracle : DwarfOracle) (arg : List Char) :
    break_point oracle [arg] = break_point_amended oracle arg := by
  unfold break_point break_point_amended
  by_cases hs : startsWithStar arg
  · simp only [hs, if_true]
    cases parse_address (arg.drop 1) <;> rfl
  · simp only [hs, if_false, Bool.false_eq_true]
    cases hf : from_str_radix decDigit 10 arg with
    | some line =>
      simp only [hf]
      cases oracle.get_addr_for_line line <;> rfl
    | none => simp only [hf]

end Deet
